import Mathlib

/-!
Shallow embedding of the view-synthesis and photometric-loss core of the
vode-2020 repository (files `model/synthesize_batch.py`,
`model/loss_and_metric/losses.py`, `model/build_model/model_factory.py`).

Real-valued tensors are modelled over `ℚ` so that the exact-equality
properties stated in the specification are decidable and provable.  Every
tensor operation of the pipeline is elementwise or broadcast over the batch
and source-frame dimensions, so those dimensions are modelled by
instantiating the definitions per batch element and per source frame; the
spatial dimensions are kept explicit, with images indexed as
`(row v, column u, channel c)` and flattened pixel indices `p = v * width + u`
exactly as produced by the row-major `tf.reshape` calls in the source.
-/

namespace Vode

/-- Image tensor of one frame: channel value at row `v`, column `u`. -/
abbrev Image := ℕ → ℕ → Fin 3 → ℚ

/-- Depth map of the target frame, indexed by row `v`, column `u`. -/
abbrev Depth := ℕ → ℕ → ℚ

/-- Camera intrinsic matrix (3x3). -/
abbrev Mat3 := Fin 3 → Fin 3 → ℚ

/-- Homogeneous rigid-transform matrix (4x4). -/
abbrev Mat4 := Fin 4 → Fin 4 → ℚ

/-- Matrix-vector product for 3x3 matrices: the per-point semantics of the
batched `tf.matmul` / `tf.tensordot` calls in `synthesize_batch.py`. -/
def mv3 (A : Mat3) (x : Fin 3 → ℚ) : Fin 3 → ℚ :=
  fun i => A i 0 * x 0 + A i 1 * x 1 + A i 2 * x 2

/-- Matrix-vector product for 4x4 matrices (per-point semantics of the pose
multiplication in `transform_to_source`). -/
def mv4 (A : Mat4) (x : Fin 4 → ℚ) : Fin 4 → ℚ :=
  fun i => A i 0 * x 0 + A i 1 * x 1 + A i 2 * x 2 + A i 3 * x 3

/-- Determinant of a 3x3 matrix, written out by cofactor expansion. -/
def det3 (A : Mat3) : ℚ :=
  A 0 0 * (A 1 1 * A 2 2 - A 1 2 * A 2 1)
    - A 0 1 * (A 1 0 * A 2 2 - A 1 2 * A 2 0)
    + A 0 2 * (A 1 0 * A 2 1 - A 1 1 * A 2 0)

/-- Adjugate (transposed cofactor matrix) of a 3x3 matrix. -/
def adj3 (A : Mat3) : Mat3 := fun i j =>
  if i = 0 then
    if j = 0 then A 1 1 * A 2 2 - A 1 2 * A 2 1
    else if j = 1 then -(A 0 1 * A 2 2 - A 0 2 * A 2 1)
    else A 0 1 * A 1 2 - A 0 2 * A 1 1
  else if i = 1 then
    if j = 0 then -(A 1 0 * A 2 2 - A 1 2 * A 2 0)
    else if j = 1 then A 0 0 * A 2 2 - A 0 2 * A 2 0
    else -(A 0 0 * A 1 2 - A 0 2 * A 1 0)
  else
    if j = 0 then A 1 0 * A 2 1 - A 1 1 * A 2 0
    else if j = 1 then -(A 0 0 * A 2 1 - A 0 1 * A 2 0)
    else A 0 0 * A 1 1 - A 0 1 * A 1 0

/-- Exact inverse of a 3x3 matrix: the semantics of `tf.linalg.inv` on an
invertible input, as used by `pixel2cam`. -/
def inv3 (A : Mat3) : Mat3 := fun i j => adj3 A i j / det3 A

/-- Identity 4x4 pose matrix (the "identity pose" of the specification). -/
def id4 : Mat4 := fun i j => if i = j then 1 else 0

/-- Value clipping on integers: `tf.clip_by_value(x, lo, hi)`.  The clipped
floor/ceil coordinates produced in `neighbor_int_pixels` are integral floats,
so they are modelled in `ℤ`. -/
def clip_int (x lo hi : ℤ) : ℤ := min (max x lo) hi

/-- Fixed pixel grid of `pixel_meshgrid` (stride 1): flattened row-major, the
pixel with flat index `p` has coordinates `u = p % width`, `v = p / width`,
with a homogeneous trailing 1. -/
def pixel_meshgrid (width : ℕ) (p : ℕ) : Fin 3 → ℚ :=
  fun i => if i = 0 then ((p % width : ℕ) : ℚ)
           else if i = 1 then ((p / width : ℕ) : ℚ) else 1

/-- Clipped integer neighbor coordinates of `neighbor_int_pixels`:
`(u_floor, u_ceil, v_floor, v_ceil)` where the ceil is `floor + 1` before
clipping, and both are clipped into `[0, width-1]` resp. `[0, height-1]`. -/
structure FloorCeil where
  uf : ℤ
  uc : ℤ
  vf : ℤ
  vc : ℤ

/-- Embedding of `neighbor_int_pixels(pixel_coords, height, width)` for one
warp coordinate `(u, v)`. -/
def neighbor_int_pixels (u v : ℚ) (height width : ℕ) : FloorCeil :=
  { uf := clip_int ⌊u⌋ 0 ((width : ℤ) - 1)
    uc := clip_int (⌊u⌋ + 1) 0 ((width : ℤ) - 1)
    vf := clip_int ⌊v⌋ 0 ((height : ℤ) - 1)
    vc := clip_int (⌊v⌋ + 1) 0 ((height : ℤ) - 1) }

/-- Embedding of `make_valid_mask(pixel_floorceil)`: the float mask is 1 where
`u_floor + 1 == u_ceil` and `v_floor + 1 == v_ceil`, else 0. -/
def make_valid_mask (fc : FloorCeil) : ℚ :=
  if fc.uf + 1 = fc.uc ∧ fc.vf + 1 = fc.vc then 1 else 0

/-- Bilinear weights of the four neighbors, in the order
`(w_uf_vf, w_uf_vc, w_uc_vf, w_uc_vc)` of the `tf.concat` in
`calc_neighbor_weights`. -/
structure Weights4 where
  ufvf : ℚ
  ufvc : ℚ
  ucvf : ℚ
  ucvc : ℚ

/-- Embedding of `calc_neighbor_weights([pixel_coords, pixel_floorceil,
valid_mask])`: axis weights are differences between the coordinate and its
clipped floor/ceil, the four products are multiplied by the validity mask. -/
def calc_neighbor_weights (u v : ℚ) (fc : FloorCeil) (mask : ℚ) : Weights4 :=
  let w_uf : ℚ := (fc.uc : ℚ) - u
  let w_uc : ℚ := u - (fc.uf : ℚ)
  let w_vf : ℚ := (fc.vc : ℚ) - v
  let w_vc : ℚ := v - (fc.vf : ℚ)
  { ufvf := w_uf * w_vf * mask
    ufvc := w_uf * w_vc * mask
    ucvf := w_uc * w_vf * mask
    ucvc := w_uc * w_vc * mask }

/-- The four gathered neighbor pixel values, in the order
`(im_uf_vf, im_uf_vc, im_uc_vf, im_uc_vc)` of the `tf.stack` in
`sample_neighbor_images`. -/
structure Samples4 where
  ufvf : ℚ
  ufvc : ℚ
  ucvf : ℚ
  ucvc : ℚ

/-- Embedding of `sample_neighbor_images([image, pixel_floorceil])`: the
`tf.gather_nd` calls index the source image by `[v, u]` pairs; the clipped
coordinates are nonnegative, so casting to `ℕ` by `Int.toNat` is exact. -/
def sample_neighbor_images (img : Image) (fc : FloorCeil) (c : Fin 3) : Samples4 :=
  { ufvf := img fc.vf.toNat fc.uf.toNat c
    ufvc := img fc.vc.toNat fc.uf.toNat c
    ucvf := img fc.vf.toNat fc.uc.toNat c
    ucvc := img fc.vc.toNat fc.uc.toNat c }

/-- Embedding of `merge_images([sampled_images, weights])`: elementwise product
followed by `tf.reduce_sum` over the 4-neighbor axis. -/
def merge_images (s : Samples4) (wt : Weights4) : ℚ :=
  s.ufvf * wt.ufvf + s.ufvc * wt.ufvc + s.ucvf * wt.ucvf + s.ucvc * wt.ucvc

/-- The bilinear-resampling chain of `reconstruct_bilinear_interp` before the
depth masking step: neighbor coordinates, validity mask, neighbor weights,
neighbor samples, weighted merge, at one warp coordinate `(u, v)`. -/
def bilinear_sample (img : Image) (height width : ℕ) (u v : ℚ) (c : Fin 3) : ℚ :=
  let fc := neighbor_int_pixels u v height width
  merge_images (sample_neighbor_images img fc c)
    (calc_neighbor_weights u v fc (make_valid_mask fc))

/-- Embedding of `erase_invalid_pixels([flat_image, depth])`: the target depth
map `[height, width]` is reshaped row-major to a flat vector, broadcast over
channels, and `tf.where` replaces the pixel by 0 exactly where the depth
equals 0. -/
def erase_invalid_pixels (flat : ℕ → Fin 3 → ℚ) (depth : Depth) (width : ℕ)
    (p : ℕ) (c : Fin 3) : ℚ :=
  if depth (p / width) (p % width) = 0 then 0 else flat p c

/-- Embedding of `reconstruct_bilinear_interp(pixel_coords, image, depth)`:
the value of the reconstructed image at row `v`, column `u`, channel `c`
(after the final row-major reshape, the output pixel `(v, u)` is the flat
pixel `p = v * width + u`).  `pixel_coords` gives the warp coordinate rows
`(u, v, 1)` for each flat target pixel index. -/
def reconstruct_bilinear_interp (pixel_coords : ℕ → Fin 3 → ℚ) (img : Image)
    (depth : Depth) (height width : ℕ) (v u : ℕ) (c : Fin 3) : ℚ :=
  erase_invalid_pixels
    (fun p ch => bilinear_sample img height width (pixel_coords p 0) (pixel_coords p 1) ch)
    depth width (v * width + u) c

/-- Epsilon added to the perspective divisor in `cam2pixel`
(`pixel_scales + 1e-10`). -/
def epsDiv : ℚ := 1 / 10000000000

/-- Embedding of `pixel2cam(pixel_coords, depth, intrinsic)` at one pixel:
back-projected camera point `inv(intrinsic) . (u,v,1) * depth`, homogenised
with a trailing 1. -/
def pixel2cam (K : Mat3) (d : ℚ) (pix : Fin 3 → ℚ) : Fin 4 → ℚ :=
  fun i =>
    if h : (i : ℕ) < 3 then mv3 (inv3 K) pix ⟨i, h⟩ * d else 1

/-- Embedding of `transform_to_source(tgt_coords, t2s_pose)` at one point:
multiplication by the 4x4 pose matrix. -/
def transform_to_source (T : Mat4) (pt : Fin 4 → ℚ) : Fin 4 → ℚ :=
  mv4 T pt

/-- The slice `tf.slice(cam_coords, (0,0,0,0), (-1,-1,3,-1))` in `cam2pixel`:
the first three rows of a homogeneous point. -/
def slice3 (pt : Fin 4 → ℚ) : Fin 3 → ℚ :=
  fun i => pt ⟨i, by omega⟩

/-- Embedding of `cam2pixel(cam_coords, intrinsic)` at one point, with the
divisor epsilon kept as a parameter (the source fixes it to `1e-10`, the
value `epsDiv`): slice the first three components, multiply by the intrinsic,
and divide all rows by the third row plus `eps`. -/
def cam2pixel (eps : ℚ) (K : Mat3) (pt : Fin 4 → ℚ) : Fin 3 → ℚ :=
  fun i => mv3 K (slice3 pt) i / (mv3 K (slice3 pt) 2 + eps)

/-- Embedding of `warp_pixel_coords([tgt_depth, pose, intrinsic], height,
width)` for one source frame at one flat target pixel index `p` (the depth
map is flattened row-major by the `tf.reshape` in `pixel2cam`). -/
def warp_pixel_coords (eps : ℚ) (K : Mat3) (T : Mat4) (depth : Depth)
    (width : ℕ) (p : ℕ) : Fin 3 → ℚ :=
  cam2pixel eps K
    (transform_to_source T
      (pixel2cam K (depth (p / width) (p % width)) (pixel_meshgrid width p)))

/-- The full synthesis pipeline of claim C1: `warp_pixel_coords` followed by
`reconstruct_bilinear_interp`, for one source frame, at output row `v`,
column `u`, channel `c`.  The source fixes `eps = epsDiv`. -/
def synthesize_view (eps : ℚ) (K : Mat3) (T : Mat4) (depth : Depth)
    (img : Image) (height width : ℕ) (v u : ℕ) (c : Fin 3) : ℚ :=
  reconstruct_bilinear_interp (warp_pixel_coords eps K T depth width) img depth
    height width v u c

/-- Embedding of `scale_intrinsic(intrinsic, scale)`: the first two rows are
divided by the scale, the third row is the tiled constant `[0, 0, 1]`. -/
def scale_intrinsic (K : Mat3) (scale : ℚ) : Mat3 := fun i j =>
  if (i : ℕ) ≤ 1 then K i j / scale
  else if j = 2 then 1 else 0

/-! Loss functions of `model/loss_and_metric/losses.py`, modelled per batch
element and per source frame (the losses reduce over the spatial and channel
axes only; the batch and source-frame axes are preserved by every step). -/

/-- The per-pixel gray value `tf.reduce_mean(synt_target, axis=-1)` used to
build the black-pixel mask of both photometric losses. -/
def synt_gray (synt : Image) (v u : ℕ) : ℚ :=
  (synt v u 0 + synt v u 1 + synt v u 2) / 3

/-- The mask `tf.equal(synt_target_gray, 0)` of the photometric losses:
true where the mean channel intensity of the synthesized pixel is exactly 0. -/
def l1_error_mask (synt : Image) (v u : ℕ) : Prop :=
  synt_gray synt v u = 0

instance (synt : Image) (v u : ℕ) : Decidable (l1_error_mask synt v u) := by
  unfold l1_error_mask; infer_instance

/-- The masked absolute photometric error of `photometric_loss_l1`:
`tf.where(error_mask, 0, |synt - orig|)`, broadcast over channels. -/
def photo_error (synt orig : Image) (v u : ℕ) (c : Fin 3) : ℚ :=
  if l1_error_mask synt v u then 0 else |synt v u c - orig v u c|

/-- Mean over the spatial and channel axes:
`tf.reduce_mean(., axis=[2, 3, 4])` on a `[batch, num_src, h, w, 3]` tensor. -/
def reduce_mean_hwc (f : ℕ → ℕ → Fin 3 → ℚ) (height width : ℕ) : ℚ :=
  (∑ v ∈ Finset.range height, ∑ u ∈ Finset.range width, ∑ c : Fin 3, f v u c)
    / (height * width * 3)

/-- Embedding of `photometric_loss_l1(synt_target, orig_target)` for one batch
element and one source frame. -/
def photometric_loss_l1 (synt orig : Image) (height width : ℕ) : ℚ :=
  reduce_mean_hwc (photo_error synt orig) height width

/-- The 3x3 spatial pooling window of
`AveragePooling3D(pool_size=[1,3,3], strides=1, padding="SAME")` centred at
`(i, j)`, clipped to the image bounds. -/
def poolWindow (height width i j : ℕ) : Finset (ℕ × ℕ) :=
  ((Finset.range height).filter fun a => i ≤ a + 1 ∧ a ≤ i + 1) ×ˢ
    ((Finset.range width).filter fun b => j ≤ b + 1 ∧ b ≤ j + 1)

/-- Average pooling with SAME padding: the mean of the values inside the
clipped window (TensorFlow average pooling excludes the padding from the
count). -/
def avg_pool_3x3 (f : ℕ → ℕ → ℚ) (height width i j : ℕ) : ℚ :=
  (∑ q ∈ poolWindow height width i j, f q.1 q.2) / (poolWindow height width i j).card

/-- Value clipping on rationals: `tf.clip_by_value(t, lo, hi)`. -/
def clip_by_value (x lo hi : ℚ) : ℚ := min (max x lo) hi

/-- The per-pixel, per-channel SSIM loss value of `photometric_loss_ssim`
before masking: local statistics by 3x3 average pooling, the SSIM ratio with
constants `c1 = 0.01^2` and `c2 = 0.03^2`, and `clip((1 - ssim)/2, 0, 1)`. -/
def ssim_map (synt orig : Image) (height width : ℕ) (v u : ℕ) (c : Fin 3) : ℚ :=
  let x : ℕ → ℕ → ℚ := fun a b => orig a b c
  let y : ℕ → ℕ → ℚ := fun a b => synt a b c
  let c1 : ℚ := 1 / 10000
  let c2 : ℚ := 9 / 10000
  let mu_x := avg_pool_3x3 x height width v u
  let mu_y := avg_pool_3x3 y height width v u
  let sigma_x := avg_pool_3x3 (fun a b => x a b ^ 2) height width v u - mu_x ^ 2
  let sigma_y := avg_pool_3x3 (fun a b => y a b ^ 2) height width v u - mu_y ^ 2
  let sigma_xy := avg_pool_3x3 (fun a b => x a b * y a b) height width v u - mu_x * mu_y
  let ssim_n := (2 * mu_x * mu_y + c1) * (2 * sigma_xy + c2)
  let ssim_d := (mu_x ^ 2 + mu_y ^ 2 + c1) * (sigma_x + sigma_y + c2)
  clip_by_value ((1 - ssim_n / ssim_d) / 2) 0 1

/-- Embedding of `photometric_loss_ssim(synt_target, orig_target)` for one
batch element and one source frame: the SSIM loss map, black pixels masked to
0 by `tf.where`, then the mean over spatial and channel axes. -/
def photometric_loss_ssim (synt orig : Image) (height width : ℕ) : ℚ :=
  reduce_mean_hwc
    (fun v u c => if l1_error_mask synt v u then 0 else ssim_map synt orig height width v u c)
    height width

/-! Construction-time dispatch of `losses.py` and `model_factory.py`.
Python functions that may raise are modelled in `Except String`; the payload
carries the message of the raised `WrongInputException`. -/

/-- Result type of the photometric-loss method dispatch: the selected loss
function. -/
abbrev PhotoLossFn := Image → Image → ℕ → ℕ → ℚ

/-- Embedding of `PhotometricLossMultiScale.__init__(method)`: methods `L1`
and `SSIM` select the corresponding loss function, any other method raises
`WrongInputException` at construction time. -/
def PhotometricLossMultiScale_init (method : String) : Except String PhotoLossFn :=
  if method = "L1" then .ok photometric_loss_l1
  else if method = "SSIM" then .ok photometric_loss_ssim
  else .error ("Wrong photometric loss name: " ++ method)

/-- Embedding of `StereoDepthLoss.__init__(method)`: the same dispatch as
`PhotometricLossMultiScale.__init__`. -/
def StereoDepthLoss_init (method : String) : Except String PhotoLossFn :=
  if method = "L1" then .ok photometric_loss_l1
  else if method = "SSIM" then .ok photometric_loss_ssim
  else .error ("Wrong photometric loss name: " ++ method)

/-- The two activation objects `ModelFactory.activation_factory` can build. -/
inductive Activation where
  | inverseSigmoid : Activation
  | exponential : Activation
deriving DecidableEq

/-- Embedding of `ModelFactory.activation_factory(activ_name)`.  The source
contains `WrongInputException(...)` in the fallthrough branch WITHOUT a
`raise` statement: the exception object is constructed and discarded, the
function returns `None` normally.  The embedding therefore yields
`.ok none` (normal return of `None`) instead of `.error` for an unknown
name. -/
def activation_factory (activ_name : String) : Except String (Option Activation) :=
  if activ_name = "InverseSigmoid" then .ok (some .inverseSigmoid)
  else if activ_name = "Exponential" then .ok (some .exponential)
  else .ok none

/-- Sum of the four bilinear weights of one warp coordinate, as produced by
`calc_neighbor_weights` from its clipped neighbors and validity mask. -/
def neighbor_weight_sum (u v : ℚ) (height width : ℕ) : ℚ :=
  let fc := neighbor_int_pixels u v height width
  let wt := calc_neighbor_weights u v fc (make_valid_mask fc)
  wt.ufvf + wt.ufvc + wt.ucvf + wt.ucvc

/-- Modelled from the spec words of claim C4 (for comparison with the source
function `photometric_loss_l1`): a mean absolute difference in which pixels
whose synthesized value is pure black are excluded from the average, i.e. the
denominator counts only the non-masked pixels. -/
def photometric_loss_l1_specmean (synt orig : Image) (height width : ℕ) : ℚ :=
  (∑ v ∈ Finset.range height, ∑ u ∈ Finset.range width, ∑ c : Fin 3,
      photo_error synt orig v u c) /
    (3 * ((((Finset.range height) ×ˢ (Finset.range width)).filter
        fun q => ¬ l1_error_mask synt q.1 q.2).card : ℚ))

/-- The intrinsic matrix of the specification's end-to-end example:
`[[50, 0, 32], [0, 50, 32], [0, 0, 1]]`. -/
def specK : Mat3 := fun i j =>
  if i = 0 then (if j = 0 then 50 else if j = 1 then 0 else 32)
  else if i = 1 then (if j = 0 then 0 else if j = 1 then 50 else 32)
  else (if j = 2 then 1 else 0)

/-- Concrete 3x3 test frame: intensity 1 at pixel `(v, u) = (1, 1)`, 0
elsewhere. -/
def imgC1 : Image := fun v u _ => if v = 1 ∧ u = 1 then 1 else 0

/-- Concrete 2x2 test frame: intensity 7 at pixel `(1, 1)`, 2 elsewhere. -/
def imgCorner : Image := fun v u _ => if v = 1 ∧ u = 1 then 7 else 2

/-- Concrete 1x2 synthesized frame: pixel `(0, 0)` is pure black, pixel
`(0, 1)` has all channels 3. -/
def imgC4synt : Image := fun v u _ => if v = 0 ∧ u = 1 then 3 else 0

/-- All-black frame. -/
def imgZero : Image := fun _ _ _ => 0

/-- Concrete ramp frame with distinct channel values. -/
def imgRamp : Image := fun v u c => (v : ℚ) + 2 * u + c

/-! Helper lemmas about the row-major flat pixel index. -/

theorem flat_index_div (v u width : ℕ) (hu : u < width) :
    (v * width + u) / width = v := by
  rw [Nat.mul_comm, Nat.mul_add_div (by omega), Nat.div_eq_of_lt hu]
  omega

theorem flat_index_mod (v u width : ℕ) (hu : u < width) :
    (v * width + u) % width = u := by
  rw [Nat.mul_comm, Nat.mul_add_mod]
  exact Nat.mod_eq_of_lt hu

/-- Helper: a collapsed clip pair forces both clips to be the unclipped
values. -/
theorem clip_int_succ_eq (x hi : ℤ) (h : clip_int x 0 hi + 1 = clip_int (x + 1) 0 hi) :
    clip_int x 0 hi = x ∧ clip_int (x + 1) 0 hi = x + 1 := by
  simp only [clip_int, min_def, max_def] at *
  split_ifs at * <;> omega

/-- C2: for every warp coordinate field, source image and target depth map,
every output pixel of `reconstruct_bilinear_interp` whose target depth value
is exactly zero has all three channels exactly zero. -/
theorem claimC2_depth_zero_black (pixel_coords : ℕ → Fin 3 → ℚ) (img : Image)
    (depth : Depth) (height width : ℕ) (v u : ℕ) (c : Fin 3)
    (hv : v < height) (hu : u < width) (hd : depth v u = 0) :
    reconstruct_bilinear_interp pixel_coords img depth height width v u c = 0 := by
  unfold reconstruct_bilinear_interp erase_invalid_pixels
  rw [flat_index_div v u width hu, flat_index_mod v u width hu]
  simp [hd]

theorem claimC2_depth_zero_black_witness :
    (0 : ℕ) < 2 ∧
      reconstruct_bilinear_interp (fun _ _ => 0) imgCorner (fun _ _ => 0) 2 2 0 0 0 = 0 :=
  ⟨by decide,
    claimC2_depth_zero_black (fun _ _ => 0) imgCorner (fun _ _ => 0) 2 2 0 0 0
      (by decide) (by decide) rfl⟩

/-- C10: `erase_invalid_pixels` changes only the pixels whose target depth is
exactly zero: at every pixel `(v, u)` with nonzero target depth, the output
equals the interpolated input value unchanged. -/
theorem claimC10_erase_preserves (flat : ℕ → Fin 3 → ℚ) (depth : Depth)
    (width v u : ℕ) (c : Fin 3) (hu : u < width) (hd : depth v u ≠ 0) :
    erase_invalid_pixels flat depth width (v * width + u) c = flat (v * width + u) c := by
  unfold erase_invalid_pixels
  rw [flat_index_div v u width hu, flat_index_mod v u width hu]
  simp [hd]

theorem claimC10_erase_preserves_witness :
    (1 : ℕ) < 2 ∧
      erase_invalid_pixels (fun _ _ => 5) (fun _ _ => 9) 2 (1 * 2 + 1) 0 = 5 :=
  ⟨by decide,
    claimC10_erase_preserves (fun _ _ => 5) (fun _ _ => 9) 2 1 1 0 (by decide) (by norm_num)⟩

/-- C7: for every intrinsic matrix and positive integer scale,
`scale_intrinsic` divides exactly the first two rows by the scale (hence the
top-left 2x2 block scales by `1/scale`) and its third row is exactly
`[0, 0, 1]`. -/
theorem claimC7_scale_intrinsic (K : Mat3) (s : ℕ) (hs : 0 < s) :
    (∀ j : Fin 3, scale_intrinsic K s 0 j = K 0 j / s ∧
      scale_intrinsic K s 1 j = K 1 j / s) ∧
    (∀ i j : Fin 2,
      scale_intrinsic K s (Fin.castLE (by norm_num) i) (Fin.castLE (by norm_num) j) =
        (1 / (s : ℚ)) * K (Fin.castLE (by norm_num) i) (Fin.castLE (by norm_num) j)) ∧
    scale_intrinsic K s 2 0 = 0 ∧ scale_intrinsic K s 2 1 = 0 ∧
    scale_intrinsic K s 2 2 = 1 := by
  refine ⟨fun j => ⟨rfl, rfl⟩, fun i j => ?_, rfl, rfl, rfl⟩
  have hi : ((Fin.castLE (show 2 ≤ 3 by norm_num) i : Fin 3) : ℕ) ≤ 1 := by
    simp only [Fin.coe_castLE]
    exact Fin.is_le i
  simp only [scale_intrinsic, if_pos hi]
  rw [one_div, inv_mul_eq_div]

theorem claimC7_scale_intrinsic_witness :
    (0 : ℕ) < 2 ∧
      ((∀ j : Fin 3, scale_intrinsic specK 2 0 j = specK 0 j / 2 ∧
        scale_intrinsic specK 2 1 j = specK 1 j / 2) ∧
      (∀ i j : Fin 2,
        scale_intrinsic specK 2 (Fin.castLE (by norm_num) i) (Fin.castLE (by norm_num) j) =
          (1 / ((2 : ℕ) : ℚ)) * specK (Fin.castLE (by norm_num) i) (Fin.castLE (by norm_num) j)) ∧
      scale_intrinsic specK 2 2 0 = 0 ∧ scale_intrinsic specK 2 2 1 = 0 ∧
      scale_intrinsic specK 2 2 2 = 1) :=
  ⟨by decide, claimC7_scale_intrinsic specK 2 (by decide)⟩

/-- C3: a warp coordinate is marked valid by `make_valid_mask` exactly when,
after clamping, ceil equals floor + 1 on both axes; whenever that condition
fails, all four weights of `calc_neighbor_weights` are exactly zero. -/
theorem claimC3_valid_mask (u v : ℚ) (height width : ℕ) :
    (make_valid_mask (neighbor_int_pixels u v height width) = 1 ↔
      ((neighbor_int_pixels u v height width).uc =
          (neighbor_int_pixels u v height width).uf + 1 ∧
        (neighbor_int_pixels u v height width).vc =
          (neighbor_int_pixels u v height width).vf + 1)) ∧
    (¬ ((neighbor_int_pixels u v height width).uc =
          (neighbor_int_pixels u v height width).uf + 1 ∧
        (neighbor_int_pixels u v height width).vc =
          (neighbor_int_pixels u v height width).vf + 1) →
      calc_neighbor_weights u v (neighbor_int_pixels u v height width)
        (make_valid_mask (neighbor_int_pixels u v height width)) = ⟨0, 0, 0, 0⟩) := by
  constructor
  · constructor
    · intro h1
      unfold make_valid_mask at h1
      split_ifs at h1 with h
      · exact ⟨h.1.symm, h.2.symm⟩
      · exact absurd h1 (by norm_num)
    · rintro ⟨h1, h2⟩
      unfold make_valid_mask
      rw [if_pos ⟨h1.symm, h2.symm⟩]
  · intro hn
    have hm : make_valid_mask (neighbor_int_pixels u v height width) = 0 := by
      unfold make_valid_mask
      rw [if_neg]
      rintro ⟨a, b⟩
      exact hn ⟨a.symm, b.symm⟩
    rw [hm]
    unfold calc_neighbor_weights
    simp [Weights4.mk.injEq]

theorem claimC3_valid_mask_witness :
    (¬ ((neighbor_int_pixels (-1 : ℚ) 0 2 2).uc =
          (neighbor_int_pixels (-1 : ℚ) 0 2 2).uf + 1 ∧
        (neighbor_int_pixels (-1 : ℚ) 0 2 2).vc =
          (neighbor_int_pixels (-1 : ℚ) 0 2 2).vf + 1)) ∧
      calc_neighbor_weights (-1 : ℚ) 0 (neighbor_int_pixels (-1 : ℚ) 0 2 2)
        (make_valid_mask (neighbor_int_pixels (-1 : ℚ) 0 2 2)) = ⟨0, 0, 0, 0⟩ :=
  ⟨by norm_num [neighbor_int_pixels, clip_int, min_def, max_def],
    (claimC3_valid_mask (-1) 0 2 2).2
      (by norm_num [neighbor_int_pixels, clip_int, min_def, max_def])⟩

/-- C9: the four bilinear weights sum exactly to the validity-mask value:
1 at valid coordinates (where each weight is also nonnegative, so the merge
is a convex combination of the four neighbors) and 0 at invalid ones. -/
theorem claimC9_weights_sum (u v : ℚ) (height width : ℕ) :
    neighbor_weight_sum u v height width =
      make_valid_mask (neighbor_int_pixels u v height width) ∧
    (make_valid_mask (neighbor_int_pixels u v height width) = 1 →
      neighbor_weight_sum u v height width = 1 ∧
      0 ≤ (calc_neighbor_weights u v (neighbor_int_pixels u v height width)
        (make_valid_mask (neighbor_int_pixels u v height width))).ufvf ∧
      0 ≤ (calc_neighbor_weights u v (neighbor_int_pixels u v height width)
        (make_valid_mask (neighbor_int_pixels u v height width))).ufvc ∧
      0 ≤ (calc_neighbor_weights u v (neighbor_int_pixels u v height width)
        (make_valid_mask (neighbor_int_pixels u v height width))).ucvf ∧
      0 ≤ (calc_neighbor_weights u v (neighbor_int_pixels u v height width)
        (make_valid_mask (neighbor_int_pixels u v height width))).ucvc) ∧
    (make_valid_mask (neighbor_int_pixels u v height width) = 0 →
      neighbor_weight_sum u v height width = 0) := by
  have hsum : neighbor_weight_sum u v height width =
      make_valid_mask (neighbor_int_pixels u v height width) := by
    by_cases h : (neighbor_int_pixels u v height width).uf + 1 =
        (neighbor_int_pixels u v height width).uc ∧
        (neighbor_int_pixels u v height width).vf + 1 =
        (neighbor_int_pixels u v height width).vc
    · have h1q : (((neighbor_int_pixels u v height width).uc : ℤ) : ℚ) =
          (((neighbor_int_pixels u v height width).uf : ℤ) : ℚ) + 1 := by
        rw [← h.1]; push_cast; ring
      have h2q : (((neighbor_int_pixels u v height width).vc : ℤ) : ℚ) =
          (((neighbor_int_pixels u v height width).vf : ℤ) : ℚ) + 1 := by
        rw [← h.2]; push_cast; ring
      simp only [neighbor_weight_sum, calc_neighbor_weights, make_valid_mask, if_pos h]
      rw [h1q, h2q]; ring
    · simp only [neighbor_weight_sum, calc_neighbor_weights, make_valid_mask, if_neg h]
      ring
  refine ⟨hsum, fun hv1 => ⟨hsum.trans hv1, ?_⟩, fun hv0 => hsum.trans hv0⟩
  have h : (neighbor_int_pixels u v height width).uf + 1 =
      (neighbor_int_pixels u v height width).uc ∧
      (neighbor_int_pixels u v height width).vf + 1 =
      (neighbor_int_pixels u v height width).vc := by
    by_contra hc
    simp only [make_valid_mask, if_neg hc] at hv1
    norm_num at hv1
  obtain ⟨hu2, hv2⟩ := h
  obtain ⟨huf, huc⟩ := clip_int_succ_eq ⌊u⌋ ((width : ℤ) - 1) hu2
  obtain ⟨hvf, hvc⟩ := clip_int_succ_eq ⌊v⌋ ((height : ℤ) - 1) hv2
  have hufq : (((neighbor_int_pixels u v height width).uf : ℤ) : ℚ) ≤ u := by
    simp only [neighbor_int_pixels, huf]
    exact Int.floor_le u
  have hucq : u ≤ (((neighbor_int_pixels u v height width).uc : ℤ) : ℚ) := by
    simp only [neighbor_int_pixels, huc]
    push_cast
    exact le_of_lt (Int.lt_floor_add_one u)
  have hvfq : (((neighbor_int_pixels u v height width).vf : ℤ) : ℚ) ≤ v := by
    simp only [neighbor_int_pixels, hvf]
    exact Int.floor_le v
  have hvcq : v ≤ (((neighbor_int_pixels u v height width).vc : ℤ) : ℚ) := by
    simp only [neighbor_int_pixels, hvc]
    push_cast
    exact le_of_lt (Int.lt_floor_add_one v)
  simp only [calc_neighbor_weights, hv1, mul_one]
  refine ⟨mul_nonneg ?_ ?_, mul_nonneg ?_ ?_, mul_nonneg ?_ ?_, mul_nonneg ?_ ?_⟩ <;>
    simp only [sub_nonneg] <;> assumption

theorem claimC9_weights_sum_witness :
    make_valid_mask (neighbor_int_pixels (1/2 : ℚ) (1/2 : ℚ) 2 2) = 1 ∧
      (neighbor_weight_sum (1/2 : ℚ) (1/2 : ℚ) 2 2 = 1 ∧
      0 ≤ (calc_neighbor_weights (1/2 : ℚ) (1/2 : ℚ)
        (neighbor_int_pixels (1/2 : ℚ) (1/2 : ℚ) 2 2)
        (make_valid_mask (neighbor_int_pixels (1/2 : ℚ) (1/2 : ℚ) 2 2))).ufvf ∧
      0 ≤ (calc_neighbor_weights (1/2 : ℚ) (1/2 : ℚ)
        (neighbor_int_pixels (1/2 : ℚ) (1/2 : ℚ) 2 2)
        (make_valid_mask (neighbor_int_pixels (1/2 : ℚ) (1/2 : ℚ) 2 2))).ufvc ∧
      0 ≤ (calc_neighbor_weights (1/2 : ℚ) (1/2 : ℚ)
        (neighbor_int_pixels (1/2 : ℚ) (1/2 : ℚ) 2 2)
        (make_valid_mask (neighbor_int_pixels (1/2 : ℚ) (1/2 : ℚ) 2 2))).ucvf ∧
      0 ≤ (calc_neighbor_weights (1/2 : ℚ) (1/2 : ℚ)
        (neighbor_int_pixels (1/2 : ℚ) (1/2 : ℚ) 2 2)
        (make_valid_mask (neighbor_int_pixels (1/2 : ℚ) (1/2 : ℚ) 2 2))).ucvc) :=
  ⟨by norm_num [make_valid_mask, neighbor_int_pixels, clip_int, min_def, max_def],
    (claimC9_weights_sum (1/2) (1/2) 2 2).2.1
      (by norm_num [make_valid_mask, neighbor_int_pixels, clip_int, min_def, max_def])⟩

/-- C4, counterexample: `photometric_loss_l1` does not divide by the number
of non-masked pixels.  On a 1x2 frame whose synthesized pixel `(0,0)` is pure
black (masked) and whose pixel `(0,1)` differs from the original by 3 in each
channel, the source function returns `9 / 6 = 3/2` (denominator = all
`1*2*3` pixel channels) while the mean over non-masked pixels is `3`. -/
theorem claimC4_counterexample :
    photometric_loss_l1 imgC4synt imgZero 1 2 = 3 / 2 ∧
    photometric_loss_l1_specmean imgC4synt imgZero 1 2 = 3 ∧
    photometric_loss_l1 imgC4synt imgZero 1 2 ≠
      photometric_loss_l1_specmean imgC4synt imgZero 1 2 := by
  have hfilter : (((Finset.range 1) ×ˢ (Finset.range 2)).filter
      fun q => ¬ l1_error_mask imgC4synt q.1 q.2) = {(0, 1)} := by
    have hprod : (Finset.range 1) ×ˢ (Finset.range 2) =
        ({(0, 0), (0, 1)} : Finset (ℕ × ℕ)) := by decide
    rw [hprod]
    rw [show ({(0, 0), (0, 1)} : Finset (ℕ × ℕ)) =
      insert (0, 0) {(0, 1)} from rfl]
    rw [Finset.filter_insert, Finset.filter_singleton]
    rw [if_neg (by norm_num [l1_error_mask, synt_gray, imgC4synt]),
      if_pos (by norm_num [l1_error_mask, synt_gray, imgC4synt])]
  have h1 : photometric_loss_l1 imgC4synt imgZero 1 2 = 3 / 2 := by
    unfold photometric_loss_l1 reduce_mean_hwc
    rw [Finset.sum_range_succ, Finset.sum_range_zero]
    rw [Finset.sum_range_succ, Finset.sum_range_succ, Finset.sum_range_zero]
    rw [Fin.sum_univ_three, Fin.sum_univ_three]
    norm_num [photo_error, l1_error_mask, synt_gray, imgC4synt, imgZero]
  have h2 : photometric_loss_l1_specmean imgC4synt imgZero 1 2 = 3 := by
    unfold photometric_loss_l1_specmean
    rw [hfilter]
    rw [Finset.sum_range_succ, Finset.sum_range_zero]
    rw [Finset.sum_range_succ, Finset.sum_range_succ, Finset.sum_range_zero]
    rw [Fin.sum_univ_three, Fin.sum_univ_three]
    norm_num [photo_error, l1_error_mask, synt_gray, imgC4synt, imgZero]
  refine ⟨h1, h2, ?_⟩
  rw [h1, h2]
  norm_num

/-- C4, amended: `photometric_loss_l1` is the sum of the per-channel absolute
differences over the non-masked pixels (pixels whose synthesized mean channel
intensity is exactly 0 contribute nothing), divided by the full pixel-channel
count `height * width * 3` — not by the number of non-masked pixels. -/
theorem claimC4_amended (synt orig : Image) (height width : ℕ) :
    photometric_loss_l1 synt orig height width =
      (∑ q ∈ ((Finset.range height) ×ˢ (Finset.range width)).filter
          (fun q => ¬ l1_error_mask synt q.1 q.2),
        ∑ c : Fin 3, |synt q.1 q.2 c - orig q.1 q.2 c|) / (height * width * 3) := by
  unfold photometric_loss_l1 reduce_mean_hwc
  congr 1
  rw [← Finset.sum_product']
  rw [Finset.sum_filter]
  apply Finset.sum_congr rfl
  intro q _
  by_cases hm : l1_error_mask synt q.1 q.2
  · simp [photo_error, hm]
  · simp [photo_error, hm]

/-- Helper: the clipped neighbor coordinates of an exact integer coordinate
away from the right/bottom border are the coordinate and its successor. -/
theorem neighbor_int_pixels_nat (u v height width : ℕ)
    (hu : u + 2 ≤ width) (hv : v + 2 ≤ height) :
    neighbor_int_pixels (u : ℚ) (v : ℚ) height width =
      ⟨(u : ℤ), (u : ℤ) + 1, (v : ℤ), (v : ℤ) + 1⟩ := by
  unfold neighbor_int_pixels clip_int
  rw [Int.floor_natCast, Int.floor_natCast]
  simp only [FloorCeil.mk.injEq, min_def, max_def]
  split_ifs <;> omega

/-- Helper: the floor of a natural number plus one half. -/
theorem floor_nat_add_half (u : ℕ) : ⌊(u : ℚ) + 1/2⌋ = (u : ℤ) := by
  rw [show ((u : ℚ) + 1/2) = ((u : ℤ) : ℚ) + 1/2 by push_cast; ring,
    Int.floor_int_add]
  norm_num

/-- Helper: the clipped neighbor coordinates of the midpoint of four
in-bounds integer neighbors. -/
theorem neighbor_int_pixels_mid (u v height width : ℕ)
    (hu : u + 2 ≤ width) (hv : v + 2 ≤ height) :
    neighbor_int_pixels ((u : ℚ) + 1/2) ((v : ℚ) + 1/2) height width =
      ⟨(u : ℤ), (u : ℤ) + 1, (v : ℤ), (v : ℤ) + 1⟩ := by
  unfold neighbor_int_pixels clip_int
  rw [floor_nat_add_half, floor_nat_add_half]
  simp only [FloorCeil.mk.injEq, min_def, max_def]
  split_ifs <;> omega

/-- Helper: the resampler chain at an exact integer coordinate away from the
right/bottom border reads off the source pixel exactly. -/
theorem bilinear_sample_int (img : Image) (height width u v : ℕ)
    (hu : u + 2 ≤ width) (hv : v + 2 ≤ height) (c : Fin 3) :
    bilinear_sample img height width (u : ℚ) (v : ℚ) c = img v u c := by
  unfold bilinear_sample
  rw [neighbor_int_pixels_nat u v height width hu hv]
  have htu : ((u : ℤ) : ℚ) = (u : ℚ) := by push_cast; ring
  have htv : ((v : ℤ) : ℚ) = (v : ℚ) := by push_cast; ring
  have hnu : ((u : ℤ) + 1).toNat = u + 1 := by omega
  have hnv : ((v : ℤ) + 1).toNat = v + 1 := by omega
  simp only [make_valid_mask, calc_neighbor_weights, sample_neighbor_images,
    merge_images, eq_self_iff_true, and_self, if_true, Int.toNat_natCast,
    hnu, hnv, htu, htv]
  push_cast
  ring

/-- Helper: the resampler chain at the midpoint of four in-bounds integer
neighbors returns exactly their average. -/
theorem bilinear_sample_mid (img : Image) (height width u v : ℕ)
    (hu : u + 2 ≤ width) (hv : v + 2 ≤ height) (c : Fin 3) :
    bilinear_sample img height width ((u : ℚ) + 1/2) ((v : ℚ) + 1/2) c =
      (img v u c + img (v + 1) u c + img v (u + 1) c + img (v + 1) (u + 1) c) / 4 := by
  unfold bilinear_sample
  rw [neighbor_int_pixels_mid u v height width hu hv]
  have hnu : ((u : ℤ) + 1).toNat = u + 1 := by omega
  have hnv : ((v : ℤ) + 1).toNat = v + 1 := by omega
  simp only [make_valid_mask, calc_neighbor_weights, sample_neighbor_images,
    merge_images, eq_self_iff_true, and_self, if_true, Int.toNat_natCast,
    hnu, hnv]
  push_cast
  ring

/-- C6, counterexample: at the exact integer coordinate `(1, 1)` of a 2x2
image — in bounds, but on the clamped last row and column — the resampler
chain (`calc_neighbor_weights`, `sample_neighbor_images`, `merge_images`)
returns 0, not the source pixel value 7. -/
theorem claimC6_counterexample :
    imgCorner 1 1 0 = 7 ∧
    bilinear_sample imgCorner 2 2 ((1 : ℕ) : ℚ) ((1 : ℕ) : ℚ) 0 = 0 ∧
    bilinear_sample imgCorner 2 2 ((1 : ℕ) : ℚ) ((1 : ℕ) : ℚ) 0 ≠ imgCorner 1 1 0 := by
  have h0 : imgCorner 1 1 0 = 7 := rfl
  have h1 : bilinear_sample imgCorner 2 2 ((1 : ℕ) : ℚ) ((1 : ℕ) : ℚ) 0 = 0 := by
    norm_num [bilinear_sample, neighbor_int_pixels, clip_int, make_valid_mask,
      calc_neighbor_weights, sample_neighbor_images, merge_images, min_def,
      max_def, imgCorner]
  refine ⟨h0, h1, ?_⟩
  rw [h0, h1]
  norm_num

/-- C6, amended: the bilinear resampler returns the source pixel exactly at
every integer coordinate whose ceil neighbor is unclamped (`u + 2 ≤ width`,
`v + 2 ≤ height`; the last row and column are masked to 0 instead), and
returns exactly the average of the four neighbor pixel values at the exact
midpoint of four in-bounds integer neighbors. -/
theorem claimC6_amended (img : Image) (height width : ℕ) :
    (∀ u v : ℕ, u + 2 ≤ width → v + 2 ≤ height → ∀ c : Fin 3,
      bilinear_sample img height width (u : ℚ) (v : ℚ) c = img v u c) ∧
    (∀ u v : ℕ, u + 2 ≤ width → v + 2 ≤ height → ∀ c : Fin 3,
      bilinear_sample img height width ((u : ℚ) + 1/2) ((v : ℚ) + 1/2) c =
        (img v u c + img (v + 1) u c + img v (u + 1) c +
          img (v + 1) (u + 1) c) / 4) :=
  ⟨fun u v hu hv c => bilinear_sample_int img height width u v hu hv c,
    fun u v hu hv c => bilinear_sample_mid img height width u v hu hv c⟩

theorem claimC6_amended_witness :
    (0 : ℕ) + 2 ≤ 3 ∧
    bilinear_sample imgCorner 3 3 ((0 : ℕ) : ℚ) ((0 : ℕ) : ℚ) 0 = imgCorner 0 0 0 ∧
    bilinear_sample imgCorner 3 3 (((0 : ℕ) : ℚ) + 1/2) (((0 : ℕ) : ℚ) + 1/2) 0 =
      (imgCorner 0 0 0 + imgCorner 1 0 0 + imgCorner 0 1 0 + imgCorner 1 1 0) / 4 :=
  ⟨by decide, (claimC6_amended imgCorner 3 3).1 0 0 (by decide) (by decide) 0,
    (claimC6_amended imgCorner 3 3).2 0 0 (by decide) (by decide) 0⟩

/-! Helper lemmas for the warp engine. -/

/-- Helper: the explicit 3x3 inverse is a right inverse on vectors. -/
theorem mv3_inv3 (A : Mat3) (hA : det3 A ≠ 0) (x : Fin 3 → ℚ) (i : Fin 3) :
    mv3 A (mv3 (inv3 A) x) i = x i := by
  have hA' : A 0 0 * (A 1 1 * A 2 2 - A 1 2 * A 2 1)
      - A 0 1 * (A 1 0 * A 2 2 - A 1 2 * A 2 0)
      + A 0 2 * (A 1 0 * A 2 1 - A 1 1 * A 2 0) ≠ 0 := hA
  fin_cases i <;>
  · simp [mv3, inv3, adj3]
    field_simp
    simp only [det3] at hA' ⊢
    ring

/-- Helper: multiplying by the identity pose matrix changes nothing. -/
theorem transform_id4 (x : Fin 4 → ℚ) : transform_to_source id4 x = x := by
  funext i
  fin_cases i <;> simp [transform_to_source, mv4, id4]

/-- Helper: matrix-vector products commute with componentwise scaling. -/
theorem mv3_mul_right (A : Mat3) (x : Fin 3 → ℚ) (d : ℚ) (i : Fin 3) :
    mv3 A (fun j => x j * d) i = mv3 A x i * d := by
  unfold mv3
  ring

/-- Helper: the first three rows of a back-projected point are the scaled
back-projection. -/
theorem slice3_pixel2cam (K : Mat3) (d : ℚ) (pix : Fin 3 → ℚ) :
    slice3 (pixel2cam K d pix) = fun j => mv3 (inv3 K) pix j * d := by
  funext j
  unfold slice3 pixel2cam
  rw [dif_pos j.isLt]

/-- Helper: with identity pose, constant nonzero depth, and the epsilon
dropped from the perspective divisor, the warped pixel coordinates are
exactly the target pixel grid coordinates. -/
theorem warp_pixel_coords_identity (K : Mat3) (hK : det3 K ≠ 0) (d : ℚ)
    (hd : d ≠ 0) (width p : ℕ) (i : Fin 3) :
    warp_pixel_coords 0 K id4 (fun _ _ => d) width p i =
      pixel_meshgrid width p i := by
  unfold warp_pixel_coords
  rw [transform_id4]
  unfold cam2pixel
  rw [slice3_pixel2cam]
  have h1 : ∀ k : Fin 3,
      mv3 K (fun j => mv3 (inv3 K) (pixel_meshgrid width p) j * d) k =
        pixel_meshgrid width p k * d := by
    intro k
    rw [mv3_mul_right, mv3_inv3 K hK]
  rw [h1 i, h1 2]
  have h2 : pixel_meshgrid width p 2 = 1 := by simp [pixel_meshgrid]
  rw [h2, add_zero, one_mul, mul_div_cancel_right₀ _ hd]

/-- C1, amended: with identity pose, a strictly positive constant depth map,
and the perspective divisor taken as exactly the depth (the `1e-10` epsilon
dropped), the pipeline `warp_pixel_coords` followed by
`reconstruct_bilinear_interp` reproduces the source frame exactly at every
in-bounds pixel off the last row and column; with the epsilon included, the
counterexample `claimC1_counterexample` shows exact reproduction fails. -/
theorem claimC1_amended (K : Mat3) (hK : det3 K ≠ 0) (d : ℚ) (hd : 0 < d)
    (img : Image) (height width v u : ℕ) (hu : u + 2 ≤ width)
    (hv : v + 2 ≤ height) (c : Fin 3) :
    synthesize_view 0 K id4 (fun _ _ => d) img height width v u c = img v u c := by
  unfold synthesize_view reconstruct_bilinear_interp erase_invalid_pixels
  simp only []
  rw [if_neg hd.ne']
  rw [warp_pixel_coords_identity K hK d hd.ne' width (v * width + u) 0,
    warp_pixel_coords_identity K hK d hd.ne' width (v * width + u) 1]
  have h0 : pixel_meshgrid width (v * width + u) 0 = (u : ℚ) := by
    simp [pixel_meshgrid, flat_index_mod v u width (by omega)]
  have h1 : pixel_meshgrid width (v * width + u) 1 = (v : ℚ) := by
    simp [pixel_meshgrid, flat_index_div v u width (by omega)]
  rw [h0, h1]
  exact bilinear_sample_int img height width u v hu hv c

theorem claimC1_amended_witness :
    det3 specK ≠ 0 ∧ (0 : ℚ) < 5 ∧
    synthesize_view 0 specK id4 (fun _ _ => 5) imgC1 3 3 0 0 0 = imgC1 0 0 0 :=
  ⟨by norm_num [det3, specK, Fin.ext_iff], by norm_num,
    claimC1_amended specK (by norm_num [det3, specK, Fin.ext_iff]) 5 (by norm_num)
      imgC1 3 3 0 0 (by omega) (by omega) 0⟩

/-- C1, counterexample: on a 3x3 frame with the specification's intrinsic
`[[50,0,32],[0,50,32],[0,0,1]]`, identity pose, constant depth 5, and source
identical to target, the full pipeline with the source's `1e-10` divisor
epsilon returns `(5*10^10 / (5*10^10 + 1))^2` at the interior pixel `(1,1)`
instead of the source value 1: the perspective divide epsilon does perturb
the reconstruction away from exact equality. -/
theorem claimC1_counterexample :
    synthesize_view epsDiv specK id4 (fun _ _ => 5) imgC1 3 3 1 1 0 =
      2500000000000000000000 / 2500000000100000000001 ∧
    imgC1 1 1 0 = 1 ∧
    synthesize_view epsDiv specK id4 (fun _ _ => 5) imgC1 3 3 1 1 0 ≠
      imgC1 1 1 0 := by
  have hwarp : ∀ i : Fin 3, i = 0 ∨ i = 1 →
      warp_pixel_coords epsDiv specK id4 (fun _ _ => 5) 3 4 i =
        50000000000 / 50000000001 := by
    intro i hi
    unfold warp_pixel_coords
    rw [transform_id4]
    unfold cam2pixel
    rw [slice3_pixel2cam]
    rcases hi with h | h <;> subst h <;>
      norm_num [mv3, inv3, adj3, det3, pixel_meshgrid, epsDiv, specK,
        Fin.ext_iff]
  have hval : synthesize_view epsDiv specK id4 (fun _ _ => 5) imgC1 3 3 1 1 0 =
      2500000000000000000000 / 2500000000100000000001 := by
    unfold synthesize_view reconstruct_bilinear_interp erase_invalid_pixels
    simp only []
    rw [if_neg (by norm_num : ¬ (5 : ℚ) = 0)]
    rw [show (1 * 3 + 1 : ℕ) = 4 from rfl]
    rw [hwarp 0 (Or.inl rfl), hwarp 1 (Or.inr rfl)]
    have hfloor : ⌊(50000000000 / 50000000001 : ℚ)⌋ = 0 := by norm_num
    norm_num [bilinear_sample, neighbor_int_pixels, clip_int, min_def, max_def,
      make_valid_mask, calc_neighbor_weights, sample_neighbor_images,
      merge_images, imgC1, hfloor, Int.toNat_zero, Int.toNat_one]
  refine ⟨hval, rfl, ?_⟩
  rw [hval, show imgC1 1 1 0 = 1 from rfl]
  norm_num

/-! Helper lemmas for the SSIM loss. -/

/-- Helper: the pooled variance is nonnegative — the 3x3 window average of
squares dominates the square of the window average (Cauchy-Schwarz). -/
theorem avg_pool_var_nonneg (f : ℕ → ℕ → ℚ) (height width i j : ℕ) :
    0 ≤ avg_pool_3x3 (fun a b => f a b ^ 2) height width i j -
      (avg_pool_3x3 f height width i j) ^ 2 := by
  unfold avg_pool_3x3
  rcases Nat.eq_zero_or_pos (poolWindow height width i j).card with h0 | hpos
  · rw [Finset.card_eq_zero] at h0
    simp [h0]
  · have hn : (0 : ℚ) < ((poolWindow height width i j).card : ℚ) := by
      exact_mod_cast hpos
    rw [div_pow, sub_nonneg, div_le_div_iff (by positivity) hn]
    have cs : (∑ q ∈ poolWindow height width i j, f q.1 q.2) ^ 2 ≤
        ((poolWindow height width i j).card : ℚ) *
          ∑ q ∈ poolWindow height width i j, f q.1 q.2 ^ 2 :=
      sq_sum_le_card_mul_sum_sq
    calc (∑ q ∈ poolWindow height width i j, f q.1 q.2) ^ 2 *
          ((poolWindow height width i j).card : ℚ)
        ≤ (((poolWindow height width i j).card : ℚ) *
            ∑ q ∈ poolWindow height width i j, f q.1 q.2 ^ 2) *
          ((poolWindow height width i j).card : ℚ) :=
          mul_le_mul_of_nonneg_right cs hn.le
      _ = (∑ q ∈ poolWindow height width i j, f q.1 q.2 ^ 2) *
          (((poolWindow height width i j).card : ℚ)) ^ 2 := by ring

/-- Helper: when the synthesized frame equals the original frame pointwise,
every entry of the SSIM loss map is exactly zero (the SSIM ratio is 1, its
denominator being strictly positive). -/
theorem ssim_map_eq_zero (synt orig : Image) (height width : ℕ)
    (hso : ∀ v u c, synt v u c = orig v u c) (v u : ℕ) (c : Fin 3) :
    ssim_map synt orig height width v u c = 0 := by
  unfold ssim_map
  simp only [hso]
  have hmm : (fun a b => orig a b c * orig a b c) =
      fun a b => orig a b c ^ 2 := by
    funext a b
    ring
  rw [hmm]
  have hvar := avg_pool_var_nonneg (fun a b => orig a b c) height width v u
  simp only [] at hvar
  set A := avg_pool_3x3 (fun a b => orig a b c) height width v u with hA
  set Q := avg_pool_3x3 (fun a b => orig a b c ^ 2) height width v u with hQ
  have hd : (0 : ℚ) <
      (A ^ 2 + A ^ 2 + 1 / 10000) * (Q - A ^ 2 + (Q - A ^ 2) + 9 / 10000) := by
    apply mul_pos
    · positivity
    · linarith
  have hnd : (2 * A * A + 1 / 10000) * (2 * (Q - A * A) + 9 / 10000) =
      (A ^ 2 + A ^ 2 + 1 / 10000) * (Q - A ^ 2 + (Q - A ^ 2) + 9 / 10000) := by
    ring
  rw [hnd, div_self hd.ne']
  norm_num [clip_by_value]

/-- C5: when the synthesized target equals the original target at every pixel
and channel, both `photometric_loss_l1` and `photometric_loss_ssim` return
exactly zero (for every batch element and source frame, each modelled by one
instantiation). -/
theorem claimC5_zero_loss (synt orig : Image) (height width : ℕ)
    (hso : ∀ v u c, synt v u c = orig v u c) :
    photometric_loss_l1 synt orig height width = 0 ∧
    photometric_loss_ssim synt orig height width = 0 := by
  constructor
  · have hz : ∀ v u c, photo_error synt orig v u c = 0 := by
      intro v u c
      unfold photo_error
      split_ifs with h
      · rfl
      · rw [hso v u c, sub_self, abs_zero]
    simp [photometric_loss_l1, reduce_mean_hwc, hz]
  · simp [photometric_loss_ssim, reduce_mean_hwc,
      ssim_map_eq_zero synt orig height width hso]

theorem claimC5_zero_loss_witness :
    photometric_loss_l1 imgRamp imgRamp 2 2 = 0 ∧
    photometric_loss_ssim imgRamp imgRamp 2 2 = 0 :=
  claimC5_zero_loss imgRamp imgRamp 2 2 (fun _ _ _ => rfl)

/-- C8: the claim expects all three factories to raise `WrongInputException`
at construction time for an unknown name.  `PhotometricLossMultiScale` and
`StereoDepthLoss` do raise, but `activation_factory` merely constructs the
exception object without a `raise` statement and returns `None` normally —
no error is raised at construction for an unknown activation name. -/
theorem claimC8_construction_dispatch :
    PhotometricLossMultiScale_init "Huber" =
      Except.error "Wrong photometric loss name: Huber" ∧
    StereoDepthLoss_init "Huber" =
      Except.error "Wrong photometric loss name: Huber" ∧
    activation_factory "Huber" = Except.ok none :=
  ⟨rfl, rfl, rfl⟩

end Vode
